import Mathlib

/-!
# fms_option.h: generalized option pricing model

A shallow embedding of `fms::option` (the `model` interface and the `black`
valuation routines `moneyness`, `put`, `call`) together with the properties
of the pricing formulas.

The C++ templates are generic in their numeric types; the embedding is generic
in one numeric type `T` carrying the operations the templates use
(`Scalar T`).  The properties are proved for `double`, modelled as a real
number or NaN: arithmetic on numbers is exact, NaN is absorbing and every
comparison with NaN is false.  Rounding and the infinities are not modelled, so
the properties stated for the routines are those that do not depend on them:
the guard, the propagation of NaN, the shape of the formulas, the `call` stub,
the order of moneyness values and the bounds of `put`.  The derivation of the
header comment, `E[(k - F)^+] = k P(F < k) - f P_s(F < k)`, is recorded on real
numbers.
-/

namespace fms.option

/-- The operations `fms_option.h` requires of a numeric type: the arithmetic
operators, the literal `0`, the comparison `<=`, `std::log` and
`std::numeric_limits<T>::quiet_NaN()`. -/
class Scalar (T : Type) extends Add T, Sub T, Mul T, Div T, Zero T, LE T where
  /-- The value of `std::numeric_limits<T>::quiet_NaN()`. -/
  quiet_NaN : T
  /-- The function `std::log`. -/
  log : T → T
  /-- The comparison `<=` is evaluated by the program. -/
  decLE : ∀ a b : T, Decidable (a ≤ b)

instance instDecidableScalarLE {T : Type} [Scalar T] (a b : T) : Decidable (a ≤ b) :=
  Scalar.decLE a b

/-- The variable template `NaN<X>`, the value
`std::numeric_limits<X>::quiet_NaN()`: returned instead of throwing. -/
def NaN (X : Type) [Scalar X] : X := Scalar.quiet_NaN

/-- The interface `struct model` for option pricing models; the two fields are
the pure virtual functions `_cdf` and `_cgf`. -/
structure model (T : Type) where
  /-- The pure virtual `T _cdf(F x, S s) const`. -/
  _cdf : T → T → T
  /-- The pure virtual `S _cgf(S s) const`. -/
  _cgf : T → T

/-- The member `model::cdf`, the cumulative share distribution function
`P_s(X < x) = E[1(X < x) exp(s X - kappa(s))]`. -/
def model.cdf {T : Type} (m : model T) (x s : T) : T := m._cdf x s

/-- The member `model::cgf`, the cumulant generating function
`kappa(s) = log E[exp(s X)]`. -/
def model.cgf {T : Type} (m : model T) (s : T) : T := m._cgf s

namespace black

/-- The function `black::moneyness`: `F < k iff X < (log(k/f) + kappa(s))/s`. -/
def moneyness {T : Type} [Scalar T] (f s k : T) (m : model T) : T :=
  if f ≤ 0 ∨ s ≤ 0 ∨ k ≤ 0 then
    NaN T
  else
    (Scalar.log (k / f) + m.cgf s) / s

/-- The function `black::put`; the literal `0` passed to `cdf` is the zero of
the numeric type. -/
def put {T : Type} [Scalar T] (f s k : T) (m : model T) : T :=
  let x := moneyness f s k m
  k * m.cdf x 0 - f * m.cdf x s

/-- The function `black::call`: the body is `return 0;`, so the deduced return type is
`int`. -/
def call {T : Type} [Scalar T] (_f _s _k : T) (_m : model T) : Int :=
  0

end black

/-! ## The numeric type `double` -/

/-- A `double`: a real number or NaN. -/
inductive double where
  | nan : double
  | num : ℝ → double

namespace double

/-- Binary arithmetic: exact on numbers, NaN when an operand is NaN. -/
def lift₂ (op : ℝ → ℝ → ℝ) : double → double → double
  | num a, num b => num (op a b)
  | _, _ => nan

/-- The comparison `a <= b`: false when an operand is NaN. -/
def le : double → double → Prop
  | num a, num b => a ≤ b
  | _, _ => False

/-- The comparison `a < b`: false when an operand is NaN. -/
def lt : double → double → Prop
  | num a, num b => a < b
  | _, _ => False

/-- The function `std::log` on `double`: NaN on NaN; a non-positive argument, which the
guarded code never passes, is sent to NaN as well. -/
noncomputable def log : double → double
  | num a => if 0 < a then num (Real.log a) else nan
  | nan => nan

/-- Division: NaN when an operand is NaN; division by zero, which the guarded
code never performs, is sent to NaN as well. -/
noncomputable def div : double → double → double
  | num a, num b => if b = 0 then nan else num (a / b)
  | _, _ => nan

/-- The conversion of an `int` to `double`. -/
def ofInt (i : Int) : double := num (i : ℝ)

end double

noncomputable instance instScalarDouble : Scalar double where
  add := double.lift₂ (· + ·)
  sub := double.lift₂ (· - ·)
  mul := double.lift₂ (· * ·)
  div := double.div
  zero := double.num 0
  le := double.le
  quiet_NaN := double.nan
  log := double.log
  decLE := fun _ _ => Classical.propDecidable _

instance instLTDouble : LT double := ⟨double.lt⟩

/-! ## Concrete models -/

/-- A test model, the constant driver `X = 0`: `kappa(s) = 0`, and `P_s(X < x)`
is 0 for `x <= 0` and 1 otherwise, decided by the comparison `x <= 0`. -/
noncomputable def constantDriver : model double where
  _cdf := fun x _ => if x ≤ 0 then double.num 0 else double.num 1
  _cgf := fun _ => double.num 0

/-- A real function applied to a `double`: NaN on NaN. -/
def double.map (g : ℝ → ℝ) : double → double
  | double.num a => double.num (g a)
  | double.nan => double.nan

/-- The standard normal cumulative distribution function `Φ(x) = P(Z < x)`. -/
noncomputable def Phi (x : ℝ) : ℝ :=
  (ProbabilityTheory.gaussianReal 0 1 (Set.Iio x)).toReal

/-- Modelled from the spec: the normal tilting model of the testable
properties, `kappa(s) = s^2/2` and `cdf(x, s) = Φ(x - s)`; no concrete model is
among the sources. -/
noncomputable def normalModel : model double where
  _cdf := fun x s => double.map Phi (x - s)
  _cgf := fun s => s * s / double.num 2

/-- A test model with a restricted tilt domain: the cdf `Φ(x - s)` of the normal
tilting model, which lies in `[0, 1]` at numbers and is NaN at NaN, with the
cgf `0 - log(1 - s)`, which is a number only for `s < 1`. -/
noncomputable def restrictedTilt : model double where
  _cdf := fun x s => double.map Phi (x - s)
  _cgf := fun s => double.num 0 - Scalar.log (double.num 1 - s)

/-! ## The probabilistic reading of a model -/

/-- The forward of the header comment: `F = f exp(s X - kappa(s))` with
`kappa(s) = log E[exp(s X)]`. -/
noncomputable def forward {Ω : Type*} [MeasurableSpace Ω] (μ : MeasureTheory.Measure Ω)
    (X : Ω → ℝ) (f s : ℝ) (ω : Ω) : ℝ :=
  f * Real.exp (s * X ω - ProbabilityTheory.cgf X μ s)

/-- The contract documented on `model::cdf` and `model::cgf`, for the driver
`X` at tilt `s`:
`cgf(s) = kappa(s) = log E[exp(s X)]`, `cdf(x, 0) = P(X < x)` and
`cdf(x, s) = P_s(X < x) = E[1(X < x) exp(s X - kappa(s))]`. -/
structure EsscherContract {Ω : Type*} [MeasurableSpace Ω] (μ : MeasureTheory.Measure Ω)
    (X : Ω → ℝ) (s : ℝ) (m : model double) : Prop where
  cgf_eq : m.cgf (double.num s) = double.num (ProbabilityTheory.cgf X μ s)
  cdf_zero : ∀ x : ℝ, m.cdf (double.num x) 0 = double.num (μ {ω | X ω < x}).toReal
  cdf_tilt : ∀ x : ℝ, m.cdf (double.num x) (double.num s)
    = double.num (∫ ω, Set.indicator {ω | X ω < x}
        (fun ω => Real.exp (s * X ω - ProbabilityTheory.cgf X μ s)) ω ∂μ)

/-! ## Arithmetic of `double` -/

namespace double

@[simp]
theorem num_add (a b : ℝ) : num a + num b = num (a + b) := rfl

@[simp]
theorem num_sub (a b : ℝ) : num a - num b = num (a - b) := rfl

@[simp]
theorem num_mul (a b : ℝ) : num a * num b = num (a * b) := rfl

@[simp]
theorem nan_add (a : double) : nan + a = nan := rfl

@[simp]
theorem add_nan (a : double) : a + nan = nan := by cases a <;> rfl

@[simp]
theorem nan_sub (a : double) : nan - a = nan := rfl

@[simp]
theorem sub_nan (a : double) : a - nan = nan := by cases a <;> rfl

@[simp]
theorem nan_mul (a : double) : nan * a = nan := rfl

@[simp]
theorem mul_nan (a : double) : a * nan = nan := by cases a <;> rfl

@[simp]
theorem nan_div (a : double) : nan / a = nan := rfl

@[simp]
theorem div_nan (a : double) : a / nan = nan := by cases a <;> rfl

theorem num_div (a : ℝ) {b : ℝ} (hb : b ≠ 0) : num a / num b = num (a / b) := by
  show double.div (num a) (num b) = num (a / b)
  simp [double.div, hb]

theorem zero_eq : (0 : double) = num 0 := rfl

@[simp]
theorem NaN_eq : NaN double = nan := rfl

@[simp]
theorem num_le_zero (a : ℝ) : num a ≤ (0 : double) ↔ a ≤ 0 := Iff.rfl

@[simp]
theorem num_le_num (a b : ℝ) : num a ≤ num b ↔ a ≤ b := Iff.rfl

@[simp]
theorem not_nan_le (a : double) : ¬ (nan ≤ a) := fun h => h

@[simp]
theorem not_le_nan (a : double) : ¬ (a ≤ nan) := by cases a <;> exact fun h => h

@[simp]
theorem num_lt_num (a b : ℝ) : num a < num b ↔ a < b := Iff.rfl

@[simp]
theorem not_lt_nan (a : double) : ¬ (a < nan) := by cases a <;> exact fun h => h

theorem log_num {a : ℝ} (ha : 0 < a) : Scalar.log (num a) = num (Real.log a) := by
  show double.log (num a) = num (Real.log a)
  simp [double.log, ha]

end double

namespace black

open double

/-- The guard of `moneyness` is passed on a valid domain. -/
theorem moneyness_of_pos (m : model double) {f s k : ℝ} (hf : 0 < f) (hs : 0 < s)
    (hk : 0 < k) :
    moneyness (num f) (num s) (num k) m
      = (num (Real.log (k / f)) + m.cgf (num s)) / num s := by
  have hg : ¬ (num f ≤ (0 : double) ∨ num s ≤ (0 : double) ∨ num k ≤ (0 : double)) := by
    simp only [num_le_zero, not_or, not_le]
    exact ⟨hf, hs, hk⟩
  unfold moneyness
  rw [if_neg hg, num_div k hf.ne', log_num (div_pos hk hf)]

/-- The value of `moneyness` on a valid domain when the model's cgf is a
number. -/
theorem moneyness_of_cgf (m : model double) {f s k c : ℝ} (hf : 0 < f) (hs : 0 < s)
    (hk : 0 < k) (hc : m.cgf (num s) = num c) :
    moneyness (num f) (num s) (num k) m = num ((Real.log (k / f) + c) / s) := by
  rw [moneyness_of_pos m hf hs hk, hc, num_add, num_div _ hs.ne']

/-- The guard of `moneyness` fires outside the valid domain. -/
theorem moneyness_of_invalid (m : model double) {f s k : double}
    (h : f ≤ 0 ∨ s ≤ 0 ∨ k ≤ 0) : moneyness f s k m = nan := by
  unfold moneyness
  rw [if_pos h]
  rfl

/-- Outside the valid domain `put` is NaN as soon as one of its two `cdf`
evaluations at the NaN moneyness is NaN. -/
theorem put_of_invalid (m : model double) {f s k : double} (h : f ≤ 0 ∨ s ≤ 0 ∨ k ≤ 0)
    (hcdf : m.cdf nan 0 = nan ∨ m.cdf nan s = nan) : put f s k m = nan := by
  show k * m.cdf (moneyness f s k m) 0 - f * m.cdf (moneyness f s k m) s = nan
  rw [moneyness_of_invalid m h]
  rcases hcdf with h0 | h1
  · rw [h0, mul_nan, nan_sub]
  · rw [h1, mul_nan, sub_nan]

/-- The value of `put` at `f = -1`, `s = 1`, `k = 1` for the constant driver:
the NaN moneyness fails the comparison inside its `cdf`, which returns 1. -/
theorem put_constantDriver_invalid :
    put (num (-1)) (num 1) (num 1) constantDriver = num 2 := by
  have hx : moneyness (num (-1)) (num 1) (num 1) constantDriver = nan :=
    moneyness_of_invalid _ (Or.inl ((num_le_zero (-1)).mpr (by norm_num)))
  show num 1 * constantDriver.cdf (moneyness (num (-1)) (num 1) (num 1) constantDriver) 0
      - num (-1) * constantDriver.cdf (moneyness (num (-1)) (num 1) (num 1) constantDriver)
          (num 1) = num 2
  rw [hx]
  have hc : ∀ t : double, constantDriver.cdf nan t = num 1 := fun t =>
    if_neg (not_nan_le 0)
  rw [hc, hc, num_mul, num_mul, num_sub]
  norm_num

/-- The threshold on the driver, in real arithmetic: `f exp(s x - c) < k` exactly
when `x < (log(k/f) + c)/s`. -/
theorem forward_lt_iff {f s k : ℝ} (hf : 0 < f) (hs : 0 < s) (hk : 0 < k) (c x : ℝ) :
    f * Real.exp (s * x - c) < k ↔ x < (Real.log (k / f) + c) / s := by
  rw [lt_div_iff₀ hs, ← sub_lt_iff_lt_add, Real.lt_log_iff_exp_lt (div_pos hk hf),
    lt_div_iff₀ hf, mul_comm x s, mul_comm _ f]

/-! ### The expected put payoff -/

open MeasureTheory ProbabilityTheory

/-- The tilting density `exp(s X - kappa(s))` is integrable when `exp(s X)` is. -/
theorem integrable_tilt {Ω : Type*} [MeasurableSpace Ω] (μ : Measure Ω) (X : Ω → ℝ) (s : ℝ)
    (hint : Integrable (fun ω => Real.exp (s * X ω)) μ) :
    Integrable (fun ω => Real.exp (s * X ω - cgf X μ s)) μ := by
  simp only [Real.exp_sub]
  exact hint.div_const _

/-- The derivation of the header comment:
`E[(k - F)^+] = k P(F < k) - f P_s(F < k)`, with the event `F < k` written on the
driver as `X < d`, `d = (log(k/f) + kappa(s))/s`. -/
theorem integral_put_payoff {Ω : Type*} [MeasurableSpace Ω] (μ : Measure Ω)
    [IsProbabilityMeasure μ] (X : Ω → ℝ) (hX : Measurable X) {f s k : ℝ} (hf : 0 < f)
    (hs : 0 < s) (hk : 0 < k) (hint : Integrable (fun ω => Real.exp (s * X ω)) μ) :
    ∫ ω, max (k - forward μ X f s ω) 0 ∂μ
      = k * (μ {ω | X ω < (Real.log (k / f) + cgf X μ s) / s}).toReal
        - f * ∫ ω, Set.indicator {ω | X ω < (Real.log (k / f) + cgf X μ s) / s}
            (fun ω => Real.exp (s * X ω - cgf X μ s)) ω ∂μ := by
  set d : ℝ := (Real.log (k / f) + cgf X μ s) / s with hd
  have hA : MeasurableSet {ω | X ω < d} := measurableSet_lt hX measurable_const
  have hpt : (fun ω => max (k - forward μ X f s ω) 0)
      = Set.indicator {ω | X ω < d} (fun ω => k - forward μ X f s ω) := by
    funext ω
    by_cases h : X ω < d
    · have h2 : forward μ X f s ω < k := (forward_lt_iff hf hs hk _ _).mpr h
      rw [Set.indicator_of_mem (show ω ∈ {ω | X ω < d} from h)]
      exact max_eq_left (sub_nonneg.mpr h2.le)
    · have h2 : ¬ forward μ X f s ω < k := fun h3 => h ((forward_lt_iff hf hs hk _ _).mp h3)
      rw [Set.indicator_of_not_mem (show ω ∉ {ω | X ω < d} from h)]
      exact max_eq_right (sub_nonpos.mpr (not_lt.mp h2))
  have hF : Integrable (fun ω => forward μ X f s ω) μ :=
    (integrable_tilt μ X s hint).const_mul f
  rw [hpt, integral_indicator hA, integral_indicator hA,
    integral_sub (integrable_const k).integrableOn hF.integrableOn, setIntegral_const,
    smul_eq_mul, mul_comm _ k]
  congr 1
  exact integral_mul_left f _

/-- The value of `put` for a model meeting the contract is the expected put
payoff. -/
theorem put_of_contract {Ω : Type*} [MeasurableSpace Ω] (μ : Measure Ω)
    [IsProbabilityMeasure μ] (X : Ω → ℝ) (hX : Measurable X) (m : model double)
    {f s k : ℝ} (hf : 0 < f) (hs : 0 < s) (hk : 0 < k)
    (hint : Integrable (fun ω => Real.exp (s * X ω)) μ) (hm : EsscherContract μ X s m) :
    put (num f) (num s) (num k) m = num (∫ ω, max (k - forward μ X f s ω) 0 ∂μ) := by
  show num k * m.cdf (moneyness (num f) (num s) (num k) m) 0
      - num f * m.cdf (moneyness (num f) (num s) (num k) m) (num s) = _
  rw [moneyness_of_cgf m hf hs hk hm.cgf_eq, hm.cdf_zero, hm.cdf_tilt, num_mul, num_mul,
    num_sub, integral_put_payoff μ X hX hf hs hk hint]

/-- The put payoff `(k - F)^+` is integrable when `exp(s X)` is. -/
theorem integrable_put_payoff {Ω : Type*} [MeasurableSpace Ω] (μ : Measure Ω)
    [IsProbabilityMeasure μ] (X : Ω → ℝ) (f s k : ℝ)
    (hint : Integrable (fun ω => Real.exp (s * X ω)) μ) :
    Integrable (fun ω => max (k - forward μ X f s ω) 0) μ :=
  ((integrable_const k).sub ((integrable_tilt μ X s hint).const_mul f)).pos_part

/-- The expected put payoff is non-negative. -/
theorem integral_put_payoff_nonneg {Ω : Type*} [MeasurableSpace Ω] (μ : Measure Ω)
    (X : Ω → ℝ) (f s k : ℝ) : 0 ≤ ∫ ω, max (k - forward μ X f s ω) 0 ∂μ :=
  integral_nonneg fun _ => le_max_right _ _

/-- The expected put payoff is non-decreasing in the strike. -/
theorem integral_put_payoff_mono {Ω : Type*} [MeasurableSpace Ω] (μ : Measure Ω)
    [IsProbabilityMeasure μ] (X : Ω → ℝ) (f s : ℝ) {k1 k2 : ℝ} (h : k1 ≤ k2)
    (hint : Integrable (fun ω => Real.exp (s * X ω)) μ) :
    ∫ ω, max (k1 - forward μ X f s ω) 0 ∂μ ≤ ∫ ω, max (k2 - forward μ X f s ω) 0 ∂μ :=
  integral_mono (integrable_put_payoff μ X f s k1 hint) (integrable_put_payoff μ X f s k2 hint)
    fun _ => max_le_max (sub_le_sub_right h _) le_rfl

/-- The expected put payoff is non-increasing in the forward. -/
theorem integral_put_payoff_anti {Ω : Type*} [MeasurableSpace Ω] (μ : Measure Ω)
    [IsProbabilityMeasure μ] (X : Ω → ℝ) (s k : ℝ) {f1 f2 : ℝ} (h : f1 ≤ f2)
    (hint : Integrable (fun ω => Real.exp (s * X ω)) μ) :
    ∫ ω, max (k - forward μ X f2 s ω) 0 ∂μ ≤ ∫ ω, max (k - forward μ X f1 s ω) 0 ∂μ :=
  integral_mono (integrable_put_payoff μ X f2 s k hint) (integrable_put_payoff μ X f1 s k hint)
    fun _ => max_le_max
      (sub_le_sub_left (mul_le_mul_of_nonneg_right h (Real.exp_pos _).le) _) le_rfl

end black

/-! ## The normal tilting model meets the contract -/

section Normal

open double MeasureTheory ProbabilityTheory

/-- Tilting the standard normal density by `exp(s x - s^2/2)` shifts its mean
to `s`. -/
theorem gaussianPDFReal_tilt (s x : ℝ) :
    gaussianPDFReal 0 1 x * Real.exp (s * x - s ^ 2 / 2) = gaussianPDFReal s 1 x := by
  simp only [gaussianPDFReal, NNReal.coe_one, mul_one, sub_zero]
  rw [mul_assoc, ← Real.exp_add]
  congr 2
  ring

/-- Integrals against the standard normal law are integrals against its
density. -/
theorem setIntegral_gaussianReal (g : ℝ → ℝ) {A : Set ℝ} (hA : MeasurableSet A) :
    ∫ x in A, g x ∂(gaussianReal 0 1) = ∫ x in A, gaussianPDFReal 0 1 x * g x := by
  rw [gaussianReal_of_var_ne_zero 0 one_ne_zero]
  have h := setIntegral_withDensity_eq_setIntegral_smul (μ := (volume : Measure ℝ))
    (f := fun x => Real.toNNReal (gaussianPDFReal 0 1 x))
    (measurable_gaussianPDFReal 0 1).real_toNNReal g hA
  refine h.trans ?_
  refine setIntegral_congr_fun hA fun x _ => ?_
  simp [NNReal.smul_def, gaussianPDFReal_nonneg]

/-- The tilted probability of a set under the standard normal law is its
probability under the normal law of mean `s`. -/
theorem integral_tilt_gaussianReal (s : ℝ) {A : Set ℝ} (hA : MeasurableSet A) :
    ∫ x, Set.indicator A (fun x => Real.exp (s * x - s ^ 2 / 2)) x ∂(gaussianReal 0 1)
      = (gaussianReal s 1 A).toReal := by
  rw [integral_indicator hA, setIntegral_gaussianReal _ hA,
    gaussianReal_apply_eq_integral s one_ne_zero A, ENNReal.toReal_ofReal]
  · exact setIntegral_congr_fun hA fun x _ => gaussianPDFReal_tilt s x
  · exact setIntegral_nonneg hA fun x _ => gaussianPDFReal_nonneg _ _ _

/-- The exponential `exp(s x)` is integrable against the standard normal law. -/
theorem integrable_exp_gaussianReal (s : ℝ) :
    Integrable (fun x : ℝ => Real.exp (s * x)) (gaussianReal 0 1) := by
  rw [gaussianReal_of_var_ne_zero 0 one_ne_zero]
  refine (integrable_withDensity_iff_integrable_smul (μ := (volume : Measure ℝ))
    (f := fun x => Real.toNNReal (gaussianPDFReal 0 1 x))
    (measurable_gaussianPDFReal 0 1).real_toNNReal).mpr ?_
  have h : (fun x : ℝ => Real.toNNReal (gaussianPDFReal 0 1 x) • Real.exp (s * x))
      = fun x => Real.exp (s ^ 2 / 2) * gaussianPDFReal s 1 x := by
    funext x
    rw [← gaussianPDFReal_tilt s x, NNReal.smul_def, smul_eq_mul,
      Real.coe_toNNReal _ (gaussianPDFReal_nonneg _ _ _), mul_left_comm, ← Real.exp_add]
    congr 2
    ring
  rw [h]
  exact (integrable_gaussianPDFReal s 1).const_mul _

/-- The moment generating function of the standard normal law is
`exp(s^2/2)`. -/
theorem mgf_id_gaussianReal (s : ℝ) :
    mgf id (gaussianReal 0 1) s = Real.exp (s ^ 2 / 2) := by
  have h1 := integral_tilt_gaussianReal s MeasurableSet.univ
  rw [Set.indicator_univ, measure_univ, ENNReal.one_toReal] at h1
  have h2 : (fun x : ℝ => Real.exp (s * x))
      = fun x => Real.exp (s ^ 2 / 2) * Real.exp (s * x - s ^ 2 / 2) := by
    funext x
    rw [← Real.exp_add]
    congr 1
    ring
  show ∫ x, Real.exp (s * id x) ∂(gaussianReal 0 1) = _
  simp only [id]
  rw [h2, integral_mul_left, h1, mul_one]

/-- The cumulant generating function of the standard normal law is `s^2/2`. -/
theorem cgf_id_gaussianReal (s : ℝ) : cgf id (gaussianReal 0 1) s = s ^ 2 / 2 := by
  rw [cgf, mgf_id_gaussianReal, Real.log_exp]

/-- The normal law of mean `s` gives `x` the mass `Φ(x - s)`. -/
theorem gaussianReal_Iio (s x : ℝ) : (gaussianReal s 1 (Set.Iio x)).toReal = Phi (x - s) := by
  have h := gaussianReal_map_add_const (μ := 0) (v := 1) s
  rw [zero_add] at h
  rw [← h, Measure.map_apply (measurable_add_const s) measurableSet_Iio]
  have hp : Set.preimage (fun x => x + s) (Set.Iio x) = Set.Iio (x - s) := by
    ext y
    simp [lt_sub_iff_add_lt]
  rw [hp, Phi]

/-- The normal tilting model meets the contract for the standard normal
driver, at every tilt. -/
theorem normalModel_contract (s : ℝ) :
    EsscherContract (gaussianReal 0 1) id s normalModel where
  cgf_eq := by
    rw [cgf_id_gaussianReal]
    show num s * num s / num 2 = _
    rw [num_mul, num_div _ two_ne_zero, sq]
  cdf_zero := fun x => by
    show double.map Phi (num x - num 0) = _
    rw [num_sub, sub_zero]
    rfl
  cdf_tilt := fun x => by
    show double.map Phi (num x - num s) = _
    rw [num_sub, cgf_id_gaussianReal]
    show num (Phi (x - s)) = _
    rw [← gaussianReal_Iio, ← integral_tilt_gaussianReal s measurableSet_Iio]
    rfl

/-- The cgf of the normal tilting model at a number. -/
theorem normalModel_cgf (s : ℝ) : normalModel.cgf (num s) = num (s ^ 2 / 2) := by
  show num s * num s / num 2 = _
  rw [num_mul, num_div _ two_ne_zero, sq]

/-- The cdf of the normal tilting model at numbers. -/
theorem normalModel_cdf (x s : ℝ) : normalModel.cdf (num x) (num s) = num (Phi (x - s)) :=
  rfl

end Normal

/-! ## The claims -/

namespace black

open double MeasureTheory ProbabilityTheory

/-- The value of `put` for the normal tilting model as an expectation under the
standard normal law. -/
theorem put_normalModel {f s k : ℝ} (hf : 0 < f) (hs : 0 < s) (hk : 0 < k) :
    put (num f) (num s) (num k) normalModel
      = num (∫ x, max (k - forward (gaussianReal 0 1) id f s x) 0 ∂(gaussianReal 0 1)) :=
  put_of_contract (gaussianReal 0 1) id measurable_id normalModel hf hs hk
    (integrable_exp_gaussianReal s) (normalModel_contract s)

/-- The expected put payoff under the standard normal driver tends to the
intrinsic value `max(k - f, 0)` as the tilt tends to 0 from above. -/
theorem tendsto_integral_put_payoff (f k : ℝ) (hf : 0 < f) (hk : 0 < k) :
    Filter.Tendsto
      (fun s : ℝ => ∫ x, max (k - forward (gaussianReal 0 1) id f s x) 0 ∂(gaussianReal 0 1))
      (nhdsWithin 0 (Set.Ioi 0)) (nhds (max (k - f) 0)) := by
  have hlim : ∫ _x : ℝ, max (k - f) 0 ∂(gaussianReal 0 1) = max (k - f) 0 := by
    rw [integral_const, measure_univ, ENNReal.one_toReal, one_smul]
  rw [← hlim]
  refine tendsto_integral_filter_of_dominated_convergence (fun _ => k) ?_ ?_
    (integrable_const k) ?_
  · exact Filter.Eventually.of_forall fun s =>
      (integrable_put_payoff (gaussianReal 0 1) id f s k
        (integrable_exp_gaussianReal s)).aestronglyMeasurable
  · refine Filter.Eventually.of_forall fun s => Filter.Eventually.of_forall fun x => ?_
    have h0 : 0 ≤ forward (gaussianReal 0 1) id f s x :=
      mul_nonneg hf.le (Real.exp_pos _).le
    rw [Real.norm_eq_abs, abs_of_nonneg (le_max_right _ _)]
    exact max_le (by linarith) hk.le
  · refine Filter.Eventually.of_forall fun x => ?_
    have hc : Continuous fun s : ℝ => max (k - f * Real.exp (s * x - s ^ 2 / 2)) 0 := by
      fun_prop
    have hfun : (fun s : ℝ => max (k - forward (gaussianReal 0 1) id f s x) 0)
        = fun s : ℝ => max (k - f * Real.exp (s * x - s ^ 2 / 2)) 0 := by
      funext s
      simp only [forward, cgf_id_gaussianReal, id]
    rw [hfun]
    have h := hc.tendsto 0
    simp only [zero_mul, ne_eq, OfNat.ofNat_ne_zero, not_false_eq_true, zero_pow, zero_div,
      sub_zero, Real.exp_zero, mul_one] at h
    exact tendsto_nhdsWithin_of_tendsto_nhds h

/-- C1. For every model and all arguments, `put` is `k*m.cdf(x, 0) - f*m.cdf(x, s)`
with `x = moneyness(f, s, k, m)`; on the valid domain `f, s, k > 0` that `x` is
`d = (log(k/f) + m.cgf(s))/s`. -/
theorem put_eq_cdf_formula (m : model double) :
    (∀ f s k : double,
      put f s k m
        = k * m.cdf (moneyness f s k m) 0 - f * m.cdf (moneyness f s k m) s) ∧
    (∀ f s k : ℝ, 0 < f → 0 < s → 0 < k →
      put (num f) (num s) (num k) m
        = num k * m.cdf ((num (Real.log (k / f)) + m.cgf (num s)) / num s) 0
          - num f * m.cdf ((num (Real.log (k / f)) + m.cgf (num s)) / num s) (num s)) := by
  refine ⟨fun f s k => rfl, fun f s k hf hs hk => ?_⟩
  show num k * m.cdf (moneyness (num f) (num s) (num k) m) 0
      - num f * m.cdf (moneyness (num f) (num s) (num k) m) (num s) = _
  rw [moneyness_of_pos m hf hs hk]

/-- Witness of C1: the normal tilting model at `f = 100`, `s = 1/5`, `k = 100`. -/
theorem put_eq_cdf_formula_witness :
    (0 : ℝ) < 100 ∧ (0 : ℝ) < 1 / 5 ∧
    put (num 100) (num (1 / 5)) (num 100) normalModel
      = num 100 * normalModel.cdf
          ((num (Real.log (100 / 100)) + normalModel.cgf (num (1 / 5))) / num (1 / 5)) 0
        - num 100 * normalModel.cdf
          ((num (Real.log (100 / 100)) + normalModel.cgf (num (1 / 5))) / num (1 / 5))
          (num (1 / 5)) :=
  ⟨by norm_num, by norm_num,
    (put_eq_cdf_formula normalModel).2 100 (1 / 5) 100
      (by norm_num) (by norm_num) (by norm_num)⟩

/-- C2. On the valid domain `f, s, k > 0`, `moneyness` returns
`(log(k/f) + m.cgf(s))/s`; it reads the model only through `cgf(s)`: two models
with the same `cgf(s)` have the same moneyness, whatever their `cdf`. -/
theorem moneyness_eq_formula (m : model double) (f s k : ℝ) (hf : 0 < f) (hs : 0 < s)
    (hk : 0 < k) :
    moneyness (num f) (num s) (num k) m
        = (num (Real.log (k / f)) + m.cgf (num s)) / num s ∧
    (∀ c : ℝ, m.cgf (num s) = num c →
      moneyness (num f) (num s) (num k) m = num ((Real.log (k / f) + c) / s)) ∧
    (∀ m2 : model double, m2.cgf (num s) = m.cgf (num s) →
      moneyness (num f) (num s) (num k) m2 = moneyness (num f) (num s) (num k) m) := by
  refine ⟨moneyness_of_pos m hf hs hk, fun c hc => moneyness_of_cgf m hf hs hk hc,
    fun m2 h => ?_⟩
  rw [moneyness_of_pos m hf hs hk, moneyness_of_pos m2 hf hs hk, h]

/-- Witness of C2: the normal tilting model at `f = 100`, `s = 1/5`, `k = 100`. -/
theorem moneyness_eq_formula_witness :
    (0 : ℝ) < 100 ∧ (0 : ℝ) < 1 / 5 ∧
    moneyness (num 100) (num (1 / 5)) (num 100) normalModel
      = num ((Real.log (100 / 100) + (1 / 5) ^ 2 / 2) / (1 / 5)) :=
  ⟨by norm_num, by norm_num,
    (moneyness_eq_formula normalModel 100 (1 / 5) 100
      (by norm_num) (by norm_num) (by norm_num)).2.1 _ (normalModel_cgf (1 / 5))⟩

/-- C3. Outside the valid domain (`f <= 0` or `s <= 0` or `k <= 0`) `moneyness`
returns NaN, and the result is the same for every model. -/
theorem moneyness_invalid_eq_NaN (f s k : double) (h : f ≤ 0 ∨ s ≤ 0 ∨ k ≤ 0) :
    (∀ m : model double, moneyness f s k m = NaN double) ∧
    (∀ m1 m2 : model double, moneyness f s k m1 = moneyness f s k m2) := by
  refine ⟨fun m => moneyness_of_invalid m h, fun m1 m2 => ?_⟩
  rw [moneyness_of_invalid m1 h, moneyness_of_invalid m2 h]

/-- Witness of C3: `f = -1`, `s = 1`, `k = 1`. -/
theorem moneyness_invalid_eq_NaN_witness :
    num (-1) ≤ (0 : double) ∧
    moneyness (num (-1)) (num 1) (num 1) normalModel = NaN double :=
  ⟨(num_le_zero (-1)).mpr (by norm_num),
    (moneyness_invalid_eq_NaN (num (-1)) (num 1) (num 1)
      (Or.inl ((num_le_zero (-1)).mpr (by norm_num)))).1 normalModel⟩

/-- C4, at the failing input: the normal tilting model, `f = 100`, `s = 1/5`,
`k = 90`.  `call` returns 0 and `put` is non-negative, so `call - put` is not
`f - k = 10`. -/
theorem call_sub_put_ne_parity :
    call (num 100) (num (1 / 5)) (num 90) normalModel = 0 ∧
    double.ofInt (call (num 100) (num (1 / 5)) (num 90) normalModel)
        - put (num 100) (num (1 / 5)) (num 90) normalModel
      ≠ num 100 - num 90 := by
  refine ⟨rfl, ?_⟩
  rw [put_normalModel (by norm_num) (by norm_num) (by norm_num)]
  show num ((0 : ℤ) : ℝ) - num _ ≠ _
  rw [num_sub, num_sub]
  intro h
  have h2 := integral_put_payoff_nonneg (gaussianReal 0 1) id 100 (1 / 5) 90
  injection h with h3
  norm_num at h3
  linarith

/-- C5, as stated, fails: a model whose `cdf` does not return NaN at a NaN
argument gives a `put` that is a number on an invalid domain. -/
theorem put_invalid_not_always_NaN :
    ¬ ∀ (m : model double) (f s k : double),
        (f ≤ 0 ∨ s ≤ 0 ∨ k ≤ 0) → put f s k m = NaN double := by
  intro h
  have h2 := h constantDriver (num (-1)) (num 1) (num 1)
    (Or.inl ((num_le_zero (-1)).mpr (by norm_num)))
  rw [put_constantDriver_invalid] at h2
  exact double.noConfusion h2

/-- C5, amended. Outside the valid domain `put` evaluates the model's `cdf` at
the NaN moneyness; for a model whose `cdf` returns NaN there, at tilt 0 or at
tilt `s`, `put` returns NaN. -/
theorem put_invalid_eq_NaN (m : model double) (f s k : double)
    (h : f ≤ 0 ∨ s ≤ 0 ∨ k ≤ 0)
    (hcdf : m.cdf (NaN double) 0 = NaN double ∨ m.cdf (NaN double) s = NaN double) :
    put f s k m = NaN double :=
  put_of_invalid m h hcdf

/-- Witness of C5, amended: the normal tilting model, whose `cdf` is NaN at a
NaN argument, at `f = -1`, `s = 1`, `k = 1`. -/
theorem put_invalid_eq_NaN_witness :
    num (-1) ≤ (0 : double) ∧
    put (num (-1)) (num 1) (num 1) normalModel = NaN double :=
  ⟨(num_le_zero (-1)).mpr (by norm_num),
    put_invalid_eq_NaN normalModel (num (-1)) (num 1) (num 1)
      (Or.inl ((num_le_zero (-1)).mpr (by norm_num))) (Or.inl rfl)⟩

/-- C6, at the failing input: the normal tilting model, `f = -1`, `s = 1`,
`k = 1`.  The domain is invalid and `put` is NaN there, but `call` returns the
integer 0, which is not NaN. -/
theorem call_invalid_ne_NaN :
    num (-1) ≤ (0 : double) ∧
    put (num (-1)) (num 1) (num 1) normalModel = NaN double ∧
    call (num (-1)) (num 1) (num 1) normalModel = 0 ∧
    double.ofInt (call (num (-1)) (num 1) (num 1) normalModel) ≠ NaN double :=
  ⟨(num_le_zero (-1)).mpr (by norm_num),
    put_of_invalid normalModel (Or.inl ((num_le_zero (-1)).mpr (by norm_num))) (Or.inl rfl),
    rfl, fun h => double.noConfusion h⟩

/-- C13. The routine `call` is a stub returning a constant: for every numeric
type, every model and all arguments, valid or not, it returns 0, so its value
is the same at any two inputs and does not involve `put`, `moneyness` or the
model. -/
theorem call_eq_zero {T : Type} [Scalar T] :
    (∀ (f s k : T) (m : model T), call f s k m = 0) ∧
    (∀ (f s k f2 s2 k2 : T) (m m2 : model T), call f s k m = call f2 s2 k2 m2) :=
  ⟨fun _ _ _ _ => rfl, fun _ _ _ _ _ _ _ _ => rfl⟩

/-- The cgf of the restricted-tilt model at tilt 2 is NaN: `log(1 - 2)` is
NaN. -/
theorem restrictedTilt_cgf_two : restrictedTilt.cgf (num 2) = nan := by
  show num 0 - double.log (num 1 - num 2) = nan
  rw [num_sub]
  simp [double.log]

/-- The standard normal distribution function takes values in `[0, 1]`. -/
theorem Phi_mem (x : ℝ) : 0 ≤ Phi x ∧ Phi x ≤ 1 := by
  refine ⟨ENNReal.toReal_nonneg, ?_⟩
  have h := ENNReal.toReal_mono ENNReal.one_ne_top
    (prob_le_one (μ := gaussianReal 0 1) (s := Set.Iio x))
  rwa [ENNReal.one_toReal] at h

/-- The cdf of the restricted-tilt model lies in `[0, 1]` at numbers. -/
theorem restrictedTilt_cdf_mem (x t : ℝ) :
    num 0 ≤ restrictedTilt.cdf (num x) (num t) ∧
      restrictedTilt.cdf (num x) (num t) ≤ num 1 :=
  Phi_mem (x - t)

/-- The value of `put` for the restricted-tilt model at `f = 1`, `s = 2`,
`k = 1`: the cgf `0 - log(1 - 2)` is NaN, so are the moneyness and both cdf
values, and `put` is NaN. -/
theorem put_restrictedTilt_nan : put (num 1) (num 2) (num 1) restrictedTilt = nan := by
  have hx : moneyness (num 1) (num 2) (num 1) restrictedTilt = nan := by
    rw [moneyness_of_pos _ one_pos two_pos one_pos, restrictedTilt_cgf_two, add_nan, nan_div]
  show num 1 * restrictedTilt.cdf (moneyness (num 1) (num 2) (num 1) restrictedTilt) 0
      - num 1 * restrictedTilt.cdf (moneyness (num 1) (num 2) (num 1) restrictedTilt) (num 2)
    = nan
  rw [hx]
  rfl

/-- C16, as stated, fails: a model whose cdf lies in `[0, 1]` at every number
but whose cgf is NaN at the tilt gives a NaN moneyness, NaN cdf values and a
NaN `put`, which satisfies neither bound. -/
theorem put_bounds_not_always :
    ¬ ∀ m : model double,
        (∀ x t : ℝ, num 0 ≤ m.cdf (num x) (num t) ∧ m.cdf (num x) (num t) ≤ num 1) →
        ∀ f s k : ℝ, 0 < f → 0 < s → 0 < k →
          num (-f) ≤ put (num f) (num s) (num k) m ∧
            put (num f) (num s) (num k) m ≤ num k := by
  intro h
  have h2 := (h restrictedTilt restrictedTilt_cdf_mem 1 2 1 one_pos two_pos one_pos).2
  rw [put_restrictedTilt_nan] at h2
  exact not_nan_le _ h2

/-- C16, amended. No-arbitrage bounds: for every model and all numbers `f > 0`,
`k > 0`, at any tilt `s` and in particular for `s > 0`, when the two cdf values
that `put` reads, `m.cdf(x, 0)` and `m.cdf(x, s)` at `x = moneyness(f, s, k, m)`,
lie in `[0, 1]`, then `-f <= put(f, s, k, m) <= k`.  The comparisons are
evaluated in `double`, so a cdf value in `[0, 1]` is not NaN. -/
theorem put_bounds (m : model double) (f s k : ℝ) (hf : 0 < f) (hk : 0 < k)
    (h0 : num 0 ≤ m.cdf (moneyness (num f) (num s) (num k) m) 0 ∧
      m.cdf (moneyness (num f) (num s) (num k) m) 0 ≤ num 1)
    (hs : num 0 ≤ m.cdf (moneyness (num f) (num s) (num k) m) (num s) ∧
      m.cdf (moneyness (num f) (num s) (num k) m) (num s) ≤ num 1) :
    num (-f) ≤ put (num f) (num s) (num k) m ∧ put (num f) (num s) (num k) m ≤ num k := by
  show num (-f) ≤ num k * m.cdf (moneyness (num f) (num s) (num k) m) 0
        - num f * m.cdf (moneyness (num f) (num s) (num k) m) (num s) ∧
      num k * m.cdf (moneyness (num f) (num s) (num k) m) 0
        - num f * m.cdf (moneyness (num f) (num s) (num k) m) (num s) ≤ num k
  obtain ⟨h1, h2⟩ := h0
  obtain ⟨h3, h4⟩ := hs
  cases ha : m.cdf (moneyness (num f) (num s) (num k) m) 0 with
  | nan => rw [ha] at h1; exact absurd h1 (not_le_nan _)
  | num a =>
    cases hb : m.cdf (moneyness (num f) (num s) (num k) m) (num s) with
    | nan => rw [hb] at h3; exact absurd h3 (not_le_nan _)
    | num b =>
      rw [ha, num_le_num] at h1 h2
      rw [hb, num_le_num] at h3 h4
      rw [num_mul, num_mul, num_sub, num_le_num, num_le_num]
      constructor <;> nlinarith [mul_nonneg hk.le h1, mul_nonneg hf.le h3,
        mul_nonneg hk.le (sub_nonneg.mpr h2), mul_nonneg hf.le (sub_nonneg.mpr h4)]

/-- The cdf values that `put` reads for the normal tilting model on the valid
domain lie in `[0, 1]`. -/
theorem normalModel_cdf_moneyness_mem {f s k : ℝ} (hf : 0 < f) (hs : 0 < s) (hk : 0 < k)
    (t : ℝ) :
    num 0 ≤ normalModel.cdf (moneyness (num f) (num s) (num k) normalModel) (num t) ∧
      normalModel.cdf (moneyness (num f) (num s) (num k) normalModel) (num t) ≤ num 1 := by
  rw [moneyness_of_cgf normalModel hf hs hk (normalModel_cgf s), normalModel_cdf]
  exact Phi_mem _

/-- Witness of C16, amended: the normal tilting model at `f = 100`, `s = 1/5`,
`k = 90`. -/
theorem put_bounds_witness :
    (0 : ℝ) < 100 ∧ (0 : ℝ) < 90 ∧
    num (-100) ≤ put (num 100) (num (1 / 5)) (num 90) normalModel ∧
    put (num 100) (num (1 / 5)) (num 90) normalModel ≤ num 90 :=
  ⟨by norm_num, by norm_num,
    put_bounds normalModel 100 (1 / 5) 90 (by norm_num) (by norm_num)
      (normalModel_cdf_moneyness_mem (by norm_num) (by norm_num) (by norm_num) 0)
      (normalModel_cdf_moneyness_mem (by norm_num) (by norm_num) (by norm_num) (1 / 5))⟩

end black

end fms.option
